import Mathlib

/-
Verification of the symbol-library parser and mutator of kicad-jlc-manager
(src/kicad_jlc_manager/component.py).

Documents are modelled as lists of characters. Each Python regex used by the
source is modelled by a dedicated matcher over character lists; the matchers
reproduce the exact semantics of the concrete patterns (leftmost search,
greedy character classes, the end-of-string anchor also accepting a position
just before one trailing newline, and the zero-width lookahead split that
splits at every matching position).
-/

namespace KicadJlc

/-- Shorthand: the character list of a string literal. -/
def chars (s : String) : List Char := s.data

/-- Python regex class backslash-s, restricted to ASCII as used by the data. -/
def isPySpace (c : Char) : Bool :=
  c = ' ' || c = '\t' || c = '\n' || c = '\x0d' || c = '\x0b' || c = '\x0c'

/-- Lowercasing, modelling str.lower on the ASCII data in play. -/
def lowerL (s : List Char) : List Char := s.map Char.toLower

/-- Match a literal character sequence at the head, returning the rest. -/
def matchLit : List Char → List Char → Option (List Char)
  | [], s => some s
  | _ :: _, [] => none
  | p :: ps, c :: cs => if c = p then matchLit ps cs else none

/-- Model of a greedy backslash-s-plus group followed by a non-space
character: consume a maximal nonempty run of whitespace. -/
def skipWs1 (s : List Char) : Option (List Char × List Char) :=
  let w := s.takeWhile isPySpace
  if w.isEmpty then none else some (w, s.drop w.length)

/-- Model of a quoted capture: the class not-double-quote (starred or plus)
followed by a closing double quote. Returns the capture and the rest. -/
def takeCap (allowEmpty : Bool) (s : List Char) : Option (List Char × List Char) :=
  let v := s.takeWhile (fun c => c ≠ '"')
  if !allowEmpty && v.isEmpty then none
  else
    match s.drop v.length with
    | '"' :: r => some (v, r)
    | _ => none

/-- Result of matching a property pattern: the two whitespace runs, the
captured quoted value, and the rest of the input after the closing quote. -/
structure PropMatch where
  ws1 : List Char
  ws2 : List Char
  value : List Char
  rest : List Char
  deriving DecidableEq, Repr

/-- The literal part in front of a property pattern, with or without the
leading escaped parenthesis. -/
def propLit (withParen : Bool) : List Char :=
  if withParen then chars "(property" else chars "property"

/-- Match at the head the pattern
property-literal, ws+, quoted name, ws+, quote, capture, quote
which models the source regexes of the shape
backslash-paren property backslash-s-plus "Name" backslash-s-plus "(cap)". -/
def matchProp (withParen : Bool) (name : List Char) (allowEmpty : Bool)
    (s : List Char) : Option PropMatch :=
  match matchLit (propLit withParen) s with
  | none => none
  | some s1 =>
    match skipWs1 s1 with
    | none => none
    | some (w1, s2) =>
      match matchLit ('"' :: (name ++ ['"'])) s2 with
      | none => none
      | some s3 =>
        match skipWs1 s3 with
        | none => none
        | some (w2, s4) =>
          match matchLit ['"'] s4 with
          | none => none
          | some s5 =>
            match takeCap allowEmpty s5 with
            | none => none
            | some (v, rest) => some ⟨w1, w2, v, rest⟩

/-- Leftmost search for a property pattern; returns the text before the
match and the match data. Models re.search with the property regexes. -/
def searchProp (withParen : Bool) (name : List Char) (allowEmpty : Bool) :
    List Char → Option (List Char × PropMatch)
  | [] => none
  | c :: t =>
    match matchProp withParen name allowEmpty (c :: t) with
    | some pm => some ([], pm)
    | none =>
      match searchProp withParen name allowEmpty t with
      | some (pre, pm) => some (c :: pre, pm)
      | none => none

/-- Match at the head the symbol-name pattern
backslash-paren symbol backslash-s-plus "(cap nonempty)".
Returns the captured name and the rest. -/
def matchSymbolAt (s : List Char) : Option (List Char × List Char) :=
  match matchLit (chars "(symbol") s with
  | none => none
  | some s1 =>
    match skipWs1 s1 with
    | none => none
    | some (_, s2) =>
      match matchLit ['"'] s2 with
      | none => none
      | some s3 => takeCap false s3

/-- Leftmost search for the symbol-name pattern; returns the captured name.
Models re.search with the regex used on whole blocks (the optional run of
tabs and blanks in front of the pattern does not change the capture). -/
def searchSymbolName : List Char → Option (List Char)
  | [] => none
  | c :: t =>
    match matchSymbolAt (c :: t) with
    | some (nm, _) => some nm
    | none => searchSymbolName t

/-- The zero-width lookahead of the block splitter: optional tabs and blanks,
then the symbol-name pattern. Decides whether a split point lies here. -/
def lookSplit (s : List Char) : Bool :=
  (matchSymbolAt (s.dropWhile (fun c => c = '\t' || c = ' '))).isSome

/-- Model of re.split with the zero-width lookahead pattern: the text is cut
at every position at which the lookahead matches (as CPython does for empty
matches, resuming one character after each one). -/
def pysplitGo : List Char → List Char → List (List Char)
  | [], acc => [acc.reverse]
  | c :: rest, acc =>
    if lookSplit (c :: rest) then acc.reverse :: pysplitGo rest [c]
    else pysplitGo rest (c :: acc)

/-- Split a document at the block-start lookahead. The first segment is the
header, the rest are the block segments. -/
def pysplit (s : List Char) : List (List Char) := pysplitGo s []

/-- The header segment of a document. -/
def docHeader (s : List Char) : List Char := (pysplit s).headD []

/-- The block segments of a document, in order. -/
def docBlocks (s : List Char) : List (List Char) := (pysplit s).tail

/-- Check that a list is exactly digits, underscore, digits with both digit
groups nonempty; used for the tail of the sub-block pattern. -/
def tailTwoGroups (s : List Char) : Bool :=
  let d1 := s.takeWhile Char.isDigit
  match s.drop d1.length with
  | '_' :: rest => !d1.isEmpty && !rest.isEmpty && rest.all Char.isDigit
  | _ => false

/-- Scan for the sub-block decomposition: a newline-free prefix, an
underscore, digits, an underscore, digits reaching the end. Models the
regex dot-star underscore digits-plus underscore digits-plus dollar
anchored at the start, where dot does not match a newline. -/
def subScan : List Char → Bool
  | [] => false
  | c :: rest => (c = '_' && tailTwoGroups rest) || (c ≠ '\n' && subScan rest)

/-- Drop one trailing newline if present; the dollar anchor of the Python
regexes also matches just before a single newline that ends the string. -/
def stripTrailNl (s : List Char) : List Char :=
  match s.reverse with
  | '\n' :: r => r.reverse
  | _ => s

/-- Model of re.match with the sub-block regex on a whole name. -/
def reMatchSubName (s : List Char) : Bool := subScan (stripTrailNl s)

/-- The sub-block test of the source: the name contains an underscore and
re.match with the suffix regex succeeds. -/
def isSubBlockName (s : List Char) : Bool :=
  s.contains '_' && reMatchSubName s

/-- KiCad escape decoding: every occurrence of the brace-slash-brace token
is replaced by a literal slash, scanning left to right without rescanning,
as str.replace does. -/
def replaceSlash : List Char → List Char
  | '{' :: 's' :: 'l' :: 'a' :: 's' :: 'h' :: '}' :: rest => '/' :: replaceSlash rest
  | c :: rest => c :: replaceSlash rest
  | [] => []

/-- Match at the head the all-literal pattern of get_installed_components,
with single blanks between the tokens:
backslash-paren property blank "LCSC" blank "(cap nonempty)". -/
def matchLcscLit (s : List Char) : Option (List Char × List Char) :=
  match matchLit (chars "(property \"LCSC\" \"") s with
  | none => none
  | some s1 => takeCap false s1

/-- Model of re.findall with the literal LCSC pattern: all non-overlapping
matches scanning left to right, resuming after each match. -/
def findallLcscLit (fuel : Nat) (s : List Char) : List (List Char) :=
  match fuel with
  | 0 => []
  | fuel' + 1 =>
    match s with
    | [] => []
    | c :: t =>
      match matchLcscLit (c :: t) with
      | some (cap, after) => cap :: findallLcscLit fuel' after
      | none => findallLcscLit fuel' t

/-- Leftmost search with the literal LCSC pattern, used line by line. -/
def searchLcscLit : List Char → Option (List Char)
  | [] => none
  | c :: t =>
    match matchLcscLit (c :: t) with
    | some (cap, _) => some cap
    | none => searchLcscLit t

/-- Match at the head the all-literal symbol pattern of the line scanner:
backslash-paren symbol blank "(cap nonempty)". -/
def matchSymbolLit (s : List Char) : Option (List Char × List Char) :=
  match matchLit (chars "(symbol \"") s with
  | none => none
  | some s1 => takeCap false s1

/-- Leftmost search with the literal symbol pattern, used line by line. -/
def searchSymbolLit : List Char → Option (List Char)
  | [] => none
  | c :: t =>
    match matchSymbolLit (c :: t) with
    | some (cap, _) => some cap
    | none => searchSymbolLit t

/-- Model of str.splitlines for the terminators in play: a line break is a
carriage-return and newline pair, a lone carriage return, or a newline; a
trailing terminator does not produce a final empty line. -/
def pySplitLinesGo : List Char → List Char → List (List Char)
  | [], acc => if acc.isEmpty then [] else [acc.reverse]
  | '\x0d' :: '\n' :: rest, acc => acc.reverse :: pySplitLinesGo rest []
  | '\x0d' :: rest, acc => acc.reverse :: pySplitLinesGo rest []
  | '\n' :: rest, acc => acc.reverse :: pySplitLinesGo rest []
  | c :: rest, acc => pySplitLinesGo rest (c :: acc)

/-- Split a text into lines as str.splitlines does. -/
def pySplitLines (s : List Char) : List (List Char) := pySplitLinesGo s []

/-- Insert into an association list with Python dict semantics: an existing
key keeps its position and gets the new value, a new key goes to the end. -/
def dictInsert : List (List Char × α) → List Char → α → List (List Char × α)
  | [], k, v => [(k, v)]
  | (k0, v0) :: t, k, v =>
    if k0 = k then (k0, v) :: t else (k0, v0) :: dictInsert t k v

/-- Lookup in an association list. -/
def dictGet : List (List Char × α) → List Char → Option α
  | [], _ => none
  | (k0, v0) :: t, k => if k0 = k then some v0 else dictGet t k

/-- get_installed_components: on a missing file the empty collection, else
all captures of the literal LCSC pattern over the raw text (the source
collects them into a set; membership in this list models membership in
that set). -/
def get_installed_components (file : Option (List Char)) : List (List Char) :=
  match file with
  | none => []
  | some content => findallLcscLit (content.length + 1) content

/-- One step of the stateful line scan of
get_installed_components_with_part_numbers: a symbol line resets the
current name (escape-decoded), an LCSC line with a current name records
the pair. -/
def idNameGo : List (List Char) → Option (List Char) →
    List (List Char × List Char) → List (List Char × List Char)
  | [], _, m => m
  | line :: rest, cur, m =>
    match searchSymbolLit line with
    | some nm => idNameGo rest (some (replaceSlash nm)) m
    | none =>
      match searchLcscLit line with
      | some l =>
        match cur with
        | some nm => idNameGo rest cur (dictInsert m l nm)
        | none => idNameGo rest cur m
      | none => idNameGo rest cur m

/-- get_installed_components_with_part_numbers: on a missing file the empty
mapping, else the stateful line scan over the lines of the text. -/
def get_installed_components_with_part_numbers (file : Option (List Char)) :
    List (List Char × List Char) :=
  match file with
  | none => []
  | some content => idNameGo (pySplitLines content) none []

/-- A component record extracted from one block. -/
structure ComponentRecord where
  part_number : List Char
  value : List Char
  description : List Char
  deriving DecidableEq, Repr

/-- Extraction of one record from one block of
get_component_details_from_symbol: symbol name, sub-block filter, LCSC id,
value with fallback to the name, description with fallback to empty. -/
def parseBlockRecord (b : List Char) : Option (List Char × ComponentRecord) :=
  match searchSymbolName b with
  | none => none
  | some symbolName =>
    if isSubBlockName symbolName then none
    else
      match searchProp true (chars "LCSC") false b with
      | none => none
      | some (_, pmL) =>
        let value :=
          match searchProp true (chars "Value") false b with
          | some (_, pmV) => pmV.value
          | none => symbolName
        let value := replaceSlash value
        let description :=
          match searchProp true (chars "Description") false b with
          | some (_, pmD) => pmD.value
          | none => []
        some (pmL.value, ⟨replaceSlash symbolName, value, description⟩)

/-- Fold of the per-block extraction over the block list, building the
mapping with dict insertion (later blocks win on a duplicate id). -/
def recordsGo : List (List Char) → List (List Char × ComponentRecord) →
    List (List Char × ComponentRecord)
  | [], m => m
  | b :: bs, m =>
    match parseBlockRecord b with
    | some (k, r) => recordsGo bs (dictInsert m k r)
    | none => recordsGo bs m

/-- get_component_details_from_symbol: on a missing file the empty mapping,
else the per-block extraction over the block segments of the text. -/
def get_component_details_from_symbol (file : Option (List Char)) :
    List (List Char × ComponentRecord) :=
  match file with
  | none => []
  | some content => recordsGo (docBlocks content) []

/-- remove_component_from_symbol_lib: returns False when the file is
missing, and otherwise falls through to return False without touching the
file (the body is a stub that defers removal to a full rebuild). -/
def remove_component_from_symbol_lib (file : Option (List Char))
    (_jlcId : List Char) : Option (List Char) × Bool :=
  match file with
  | none => (none, false)
  | some content => (some content, false)

/-- The supplier metadata record, holding the five fields the source reads
from the API dictionary, each defaulting to the empty string. The absent or
empty dictionary is modelled by an Option at the call boundary. -/
structure ApiDetails where
  productIntroEn : List Char
  parentCatalogName : List Char
  catalogName : List Char
  productModel : List Char
  brandNameEn : List Char
  deriving DecidableEq, Repr

/-- Substring test, modelling the Python membership operator on strings. -/
def isSubstringL (n : List Char) : List Char → Bool
  | [] => n.isEmpty
  | c :: t => n.isPrefixOf (c :: t) || isSubstringL n t

/-- A keyword occurs in the parent category, category or description text. -/
def kwHit (kw parent category description : List Char) : Bool :=
  isSubstringL kw parent || isSubstringL kw category || isSubstringL kw description

/-- The active keyword list of the source, in order. -/
def activeKeywords : List (List Char) :=
  [chars "transistor", chars "mosfet", chars "bjt", chars "fet",
   chars "thyristor", chars "logic", chars "interface",
   chars "power management", chars "voltage regulator",
   chars "microcontroller", chars "processor", chars "memory",
   chars "analog", chars "sensor", chars "amplifier",
   chars "switching controller", chars "driver", chars "diode", chars "led"]

/-- determine_component_type on a present, nonempty details record (the
falsy-dictionary guard returning unknown is handled by the Option at the
call boundary): the passive keywords in dictionary order, then the active
keywords, each checked against the lowercased category, parent category
and description texts. -/
def determine_component_type (a : ApiDetails) : List Char :=
  let description := lowerL a.productIntroEn
  let parent := lowerL a.parentCatalogName
  let category := lowerL a.catalogName
  if kwHit (chars "resistor") parent category description then chars "resistor"
  else if kwHit (chars "capacitor") parent category description then chars "capacitor"
  else if kwHit (chars "inductor") parent category description then chars "inductor"
  else if kwHit (chars "coil") parent category description then chars "inductor"
  else if kwHit (chars "choke") parent category description then chars "inductor"
  else if activeKeywords.any (fun kw => kwHit kw parent category description) then
    chars "active"
  else chars "unknown"

/-- Match at the head a quantity: digits, an optional dot-digits fraction,
an optional multiplier from the given set, then the unit character. Models
the greedy regex with its backtracking (the multiplier sets and units are
disjoint, so each optional part is tried with, then without). Returns the
matched span. -/
def matchQuantityAt (mults : List Char) (unit : Char) (s : List Char) :
    Option (List Char) :=
  let d1 := s.takeWhile Char.isDigit
  if d1.isEmpty then none
  else
    let s1 := s.drop d1.length
    let tryUnit : List Char → Option (List Char) := fun t =>
      match t with
      | c :: rest =>
        if mults.contains c then
          match rest with
          | u :: _ => if u = unit then some [c, u] else none
          | [] => none
        else if c = unit then some [c]
        else none
      | [] => none
    match s1 with
    | '.' :: t =>
      let d2 := t.takeWhile Char.isDigit
      if d2.isEmpty then
        match tryUnit s1 with
        | some u => some (d1 ++ u)
        | none => none
      else
        match tryUnit (t.drop d2.length) with
        | some u => some (d1 ++ '.' :: (d2 ++ u))
        | none =>
          match tryUnit s1 with
          | some u => some (d1 ++ u)
          | none => none
    | _ =>
      match tryUnit s1 with
      | some u => some (d1 ++ u)
      | none => none

/-- Leftmost search for a quantity pattern. -/
def searchQuantity (mults : List Char) (unit : Char) : List Char → Option (List Char)
  | [] => none
  | c :: t =>
    match matchQuantityAt mults unit (c :: t) with
    | some v => some v
    | none => searchQuantity mults unit t

/-- Split off one trailing newline, if present, keeping it separately; the
dollar anchor of the cleanup regexes also matches before such a newline. -/
def splitTrailNlPair (s : List Char) : List Char × List Char :=
  match s.reverse with
  | '\n' :: r => (r.reverse, ['\n'])
  | _ => (s, [])

/-- The class of one uppercase letter or digit, as in the suffix regex. -/
def isUpperDigit (c : Char) : Bool := ('A' ≤ c && c ≤ 'Z') || c.isDigit

/-- The separator class comma, underscore, hyphen of the suffix regex. -/
def isSepChar (c : Char) : Bool := c = ',' || c = '_' || c = '-'

/-- On the reversed core, test a suffix of k uppercase alphanumerics
preceded by one separator. -/
def trySuffix1 (r : List Char) (k : Nat) : Bool :=
  (r.take k).length = k && (r.take k).all isUpperDigit &&
    (match r.drop k with
     | c :: _ => isSepChar c
     | [] => false)

/-- Model of re.sub removing a trailing separator plus one to four
uppercase alphanumerics; the leftmost match is the longest such suffix. -/
def pySubSuffix1 (s : List Char) : List Char :=
  let core := (splitTrailNlPair s).1
  let nl := (splitTrailNlPair s).2
  let r := core.reverse
  if trySuffix1 r 4 then (r.drop 5).reverse ++ nl
  else if trySuffix1 r 3 then (r.drop 4).reverse ++ nl
  else if trySuffix1 r 2 then (r.drop 3).reverse ++ nl
  else if trySuffix1 r 1 then (r.drop 2).reverse ++ nl
  else s

/-- Model of re.sub removing a trailing optional separator, the letter C
and digits: the trailing digit run must be nonempty and preceded by C, and
one separator before the C is included in the removal when present. -/
def pySubSuffix2 (s : List Char) : List Char :=
  let core := (splitTrailNlPair s).1
  let nl := (splitTrailNlPair s).2
  let r := core.reverse
  let d := r.takeWhile Char.isDigit
  if d.isEmpty then s
  else
    match r.drop d.length with
    | 'C' :: r2 =>
      let extra : Nat :=
        match r2 with
        | c :: _ => if c = '_' || c = '-' then 1 else 0
        | [] => 0
      (r.drop (d.length + 1 + extra)).reverse ++ nl
    | _ => s

/-- extract_component_value: quantity extraction from the description for
the passive types (with the u multiplier rendered as the micro sign),
cleaned model for the active type, raw model as fallback, absent when the
model is empty. -/
def extract_component_value (a : ApiDetails) (compType : List Char) :
    Option (List Char) :=
  let description := a.productIntroEn
  let model := a.productModel
  let fallback : Option (List Char) := if model.isEmpty then none else some model
  if compType = chars "resistor" then
    match searchQuantity (chars "kMG") 'Ω' description with
    | some v => some v
    | none => fallback
  else if compType = chars "capacitor" then
    match searchQuantity (chars "pnum") 'F' description with
    | some v => some (v.map (fun c => if c = 'u' then 'µ' else c))
    | none => fallback
  else if compType = chars "inductor" then
    match searchQuantity (chars "num") 'H' description with
    | some v => some (v.map (fun c => if c = 'u' then 'µ' else c))
    | none => fallback
  else if compType = chars "active" then
    if model.isEmpty then fallback
    else some (pySubSuffix2 (pySubSuffix1 model))
  else fallback

/-- Rebuild a block around a replaced property value: the text of the first
match with the captured value swapped for the new one, as the re.sub with
count one and the group-one backreference template produces. -/
def rebuildProp (withParen : Bool) (name : List Char) (pre : List Char)
    (pm : PropMatch) (newVal : List Char) : List Char :=
  pre ++ propLit withParen ++ pm.ws1 ++ ('"' :: (name ++ ['"'])) ++ pm.ws2 ++
    '"' :: (newVal ++ '"' :: pm.rest)

/-- The class letter, digit, underscore, comma, hyphen of the raw part
number heuristic, case insensitive. -/
def isPartChar (c : Char) : Bool :=
  ('A' ≤ c && c ≤ 'Z') || ('a' ≤ c && c ≤ 'z') || c.isDigit ||
    c = '_' || c = ',' || c = '-'

/-- Full match of the part-character class against a value, modelling the
anchored case-insensitive regex whose end anchor also accepts one trailing
newline. -/
def matchesPartClass (v : List Char) : Bool :=
  !(splitTrailNlPair v).1.isEmpty && (splitTrailNlPair v).1.all isPartChar

/-- The raw part number heuristic of the source: length above six and a
full match of the part-character class. -/
def looksLikeRawPart (v : List Char) : Bool :=
  decide (v.length > 6) && matchesPartClass v

/-- The Value rewrite of the mutator: with a nonempty derived value and a
Value property whose current value passes the raw part number heuristic,
swap the value in; otherwise leave the block alone. -/
def valueStep (b : List Char) (ev : Option (List Char)) : List Char × Bool :=
  match ev with
  | none => (b, false)
  | some v =>
    if v.isEmpty then (b, false)
    else
      match searchProp false (chars "Value") false b with
      | none => (b, false)
      | some (pre, pm) =>
        if looksLikeRawPart pm.value then
          (rebuildProp false (chars "Value") pre pm v, true)
        else (b, false)

/-- Model of str.strip: drop leading and trailing whitespace. -/
def pyStrip (s : List Char) : List Char :=
  ((s.dropWhile isPySpace).reverse.dropWhile isPySpace).reverse

/-- Remove every occurrence of blank R o H S, left to right, no rescan. -/
def removeRoHSmixed : List Char → List Char
  | ' ' :: 'R' :: 'o' :: 'H' :: 'S' :: rest => removeRoHSmixed rest
  | c :: rest => c :: removeRoHSmixed rest
  | [] => []

/-- Remove every occurrence of blank R O H S, left to right, no rescan. -/
def removeRoHSupper : List Char → List Char
  | ' ' :: 'R' :: 'O' :: 'H' :: 'S' :: rest => removeRoHSupper rest
  | c :: rest => c :: removeRoHSupper rest
  | [] => []

/-- The cleaned description: stripped, with both RoHS marker spellings
removed in the order the source applies them. -/
def cleanDescription (descRaw : List Char) : List Char :=
  removeRoHSupper (removeRoHSmixed (pyStrip descRaw))

/-- Index just past the last closing parenthesis in a run, if any. -/
def lastClosePos (r : List Char) : Option Nat :=
  match r.reverse.findIdx? (fun c => c = ')') with
  | some j => some (r.length - 1 - j)
  | none => none

/-- The bounded bracket matcher after the Datasheet literal: the regex tail
of the class run not-open-paren, a starred group of parenthesized runs with
trailing not-open-paren runs, and a final closing parenthesis. Greedy with
backtracking: iterations are consumed as long as an open parenthesis
follows; the final closing parenthesis is found by backtracking the latest
run that still holds one. Returns the number of characters matched. Fuel
bounds the recursion and exceeds the input length at every call. -/
def dsXGo (fuel : Nat) (s : List Char) (consumed : Nat) (fb : Option Nat) :
    Option Nat :=
  match fuel with
  | 0 => none
  | fuel' + 1 =>
    match s with
    | '(' :: rest =>
      let inner := rest.takeWhile (fun c => c ≠ ')')
      match rest.drop inner.length with
      | ')' :: rest2 =>
        let r := rest2.takeWhile (fun c => c ≠ '(')
        let fb2 :=
          match lastClosePos r with
          | some i => some (consumed + 1 + inner.length + 1 + i + 1)
          | none => fb
        dsXGo fuel' (rest2.drop r.length)
          (consumed + 1 + inner.length + 1 + r.length) fb2
      | _ => fb
    | _ => fb

/-- The full regex tail after the Datasheet literal part. -/
def dsX (s : List Char) : Option Nat :=
  let r := s.takeWhile (fun c => c ≠ '(')
  dsXGo (s.length + 1) (s.drop r.length) r.length
    ((lastClosePos r).map (fun i => i + 1))

/-- Match at the head the Datasheet property pattern, returning the number
of characters the match spans. -/
def matchDatasheetAt (s : List Char) : Option Nat :=
  match matchLit (chars "(property") s with
  | none => none
  | some s1 =>
    match skipWs1 s1 with
    | none => none
    | some (_, s2) =>
      match matchLit (chars "\"Datasheet\"") s2 with
      | none => none
      | some s3 =>
        match dsX s3 with
        | none => none
        | some k => some (s.length - s3.length + k)

/-- Leftmost search for the Datasheet property; returns the index just past
the end of the match. -/
def searchDatasheetEnd : List Char → Nat → Option Nat
  | [], _ => none
  | c :: t, pos =>
    match matchDatasheetAt (c :: t) with
    | some k => some (pos + k)
    | none => searchDatasheetEnd t (pos + 1)

/-- The fixed property text inserted after the Datasheet property when no
Description property exists. -/
def descTemplate (d : List Char) : List Char :=
  chars "\n    (property \"Description\" \"" ++ d ++
    chars "\" (id 6) (at 0 0 0)\n      (effects (font (size 1.27 1.27)) hide)\n    )"

/-- The Description rewrite of the mutator: with a nonempty description,
replace the value of an existing Description property, else insert a new
property after the Datasheet property, else leave the block alone. Both
rewrite branches report a change. -/
def descStep (b : List Char) (descRaw : List Char) : List Char × Bool :=
  if descRaw.isEmpty then (b, false)
  else
    let description := cleanDescription descRaw
    match searchProp true (chars "Description") true b with
    | some (pre, pm) =>
      (rebuildProp true (chars "Description") pre pm description, true)
    | none =>
      match searchDatasheetEnd b 0 with
      | some endPos =>
        (b.take endPos ++ descTemplate description ++ b.drop endPos, true)
      | none => (b, false)

/-- Join keyword strings with single blanks, as the blank join does. -/
def joinSpace : List (List Char) → List Char
  | [] => []
  | [x] => x
  | x :: y :: rest => x ++ ' ' :: joinSpace (y :: rest)

/-- The keyword rewrite of the mutator: compose the keyword list from the
id, the brand and the model (the latter two omitted when empty); when it
grew beyond the id alone and the block has a keyword property whose
stripped value equals the bare id, swap in the joined keyword string. -/
def keywordStep (b jlcId brand model : List Char) : List Char × Bool :=
  let keywords := [jlcId] ++ (if brand.isEmpty then [] else [brand]) ++
    (if model.isEmpty then [] else [model])
  if keywords.length > 1 then
    let kwString := joinSpace keywords
    match searchProp true (chars "ki_keywords") true b with
    | some (pre, pm) =>
      if pyStrip pm.value = jlcId then
        (rebuildProp true (chars "ki_keywords") pre pm kwString, true)
      else (b, false)
    | none => (b, false)
  else (b, false)

/-- The three field rewrites applied in order to the matched block, with
the overall flag the disjunction of the three. -/
def updateMatched (jlcId : List Char) (a : ApiDetails) (b : List Char) :
    List Char × Bool :=
  let compType := determine_component_type a
  let r1 := valueStep b (extract_component_value a compType)
  let r2 := descStep r1.1 a.productIntroEn
  let r3 := keywordStep r2.1 jlcId a.brandNameEn a.productModel
  (r3.1, r1.2 || r2.2 || r3.2)

/-- The block dispatch of the mutator loop: blocks without a symbol name,
sub-blocks, and blocks whose LCSC id is absent or different pass through
untouched with no change reported; the matched block is rewritten. -/
def processBlock (jlcId : List Char) (a : ApiDetails) (b : List Char) :
    List Char × Bool :=
  match searchSymbolName b with
  | none => (b, false)
  | some symbolName =>
    if isSubBlockName symbolName then (b, false)
    else
      match searchProp true (chars "LCSC") false b with
      | none => (b, false)
      | some (_, pm) =>
        if pm.value = jlcId then updateMatched jlcId a b else (b, false)

/-- Whether a block takes the rewrite path for the given id: it has a
symbol name, is not a sub-block, and carries the id as its LCSC value. -/
def isTargetBlock (jlcId : List Char) (b : List Char) : Bool :=
  match searchSymbolName b with
  | none => false
  | some symbolName =>
    if isSubBlockName symbolName then false
    else
      match searchProp true (chars "LCSC") false b with
      | none => false
      | some (_, pm) => pm.value = jlcId

/-- The core text transformation of update_symbol_in_file: split into
header and blocks, rewrite the blocks, rejoin, and report whether any
block reported a change. -/
def updateTextCore (content jlcId : List Char) (a : ApiDetails) :
    List Char × Bool :=
  let results := (docBlocks content).map (processBlock jlcId a)
  (docHeader content ++ (results.map Prod.fst).flatten, results.any Prod.snd)

/-- The file and the modelled failure modes of the rewrite: reading (or any
step before the write) may fail, and the write-back may fail; in the source
any such exception is caught at the boundary of the function. -/
structure FileSys where
  content : Option (List Char)
  readFails : Bool
  writeFails : Bool
  deriving DecidableEq, Repr

/-- update_symbol_in_file: missing file or absent-or-empty details return
False at once; a failure while reading is caught and returns False; the
new text is written back only when a change was reported, and a failure
while writing is caught and returns False with the change unreported. -/
def update_symbol_in_file (fs : FileSys) (jlcId : List Char)
    (api : Option ApiDetails) : FileSys × Bool :=
  match fs.content with
  | none => (fs, false)
  | some content =>
    match api with
    | none => (fs, false)
    | some a =>
      if fs.readFails then (fs, false)
      else
        let r := updateTextCore content jlcId a
        if r.2 then
          if fs.writeFails then (fs, false)
          else (⟨some r.1, fs.readFails, fs.writeFails⟩, true)
        else (fs, false)

/-
Concrete documents and inputs used by the counterexamples and witnesses.
-/

/-- A document with one block whose Value, Description and LCSC properties
are present; the Value does not pass the raw part heuristic path because no
candidate value is derived from the details below. -/
def exampleDocOneBlock : List Char := chars
  "(lib\n  (symbol \"TP1\"\n    (property \"Value\" \"TP1VAL\" (at 0 0 0))\n    (property \"Description\" \"old desc\" (at 0 0 0))\n    (property \"LCSC\" \"C99\" (at 0 0 0))\n  )\n)\n"

/-- Details with only a description: the derived component type is unknown
and no candidate value or keyword list can be derived. -/
def exampleApiDescOnly : ApiDetails := ⟨chars "Buck Converter", [], [], [], []⟩

/-- A document whose single LCSC property is written with two blanks after
the word property, so the whitespace-flexible block parser reads it while
the all-literal single-blank grep does not. -/
def exampleDocTwoBlanks : List Char := chars
  "(symbol \"AAA\" (property  \"LCSC\" \"C1\" (at 0 0 0)))"

/-- A block whose keyword property value is the id followed by a blank:
not exactly the bare id, yet equal to it after stripping. -/
def exampleBlockKwPadded : List Char := chars
  "(symbol \"KB1\" (property \"ki_keywords\" \"C99 \" (at 0 0 0)))"

/-- A document with two blocks carrying distinct ids. -/
def exampleDocTwoBlocks : List Char := chars
  "(symbol \"AAA\" (property \"LCSC\" \"C11\" (at 0 0 0)))\n(symbol \"BBB\" (property \"LCSC\" \"C22\" (at 0 0 0)))"

/-- A document whose single block has a name with an interior newline in
front of a suffix of the sub-block shape. -/
def exampleDocNewlineName : List Char := chars
  "(symbol \"A\nB_1_1\" (property \"LCSC\" \"C7X\" (at 0 0 0)))"

/-- A block whose Value property currently holds a raw part number. -/
def exampleBlockValue : List Char := chars
  "(property \"Value\" \"0805W8F1002T5E\" (at 0 0 0))"

/-- Details of a resistor whose description yields a resistance value. -/
def exampleApiResistor : ApiDetails :=
  ⟨chars "10kΩ ±1% 1/8W 0805 Thick Film Resistors", chars "Resistors",
    chars "Chip Resistor", chars "0805W8F1002T5E", chars "UNI"⟩

/-
Lemma layer: decomposition and construction facts about the matchers.
-/

theorem matchLit_eq {p s r : List Char} (h : matchLit p s = some r) : s = p ++ r := by
  induction p generalizing s with
  | nil => cases h; rfl
  | cons a p ih =>
    cases s with
    | nil => cases h
    | cons c t =>
      simp only [matchLit] at h
      by_cases hc : c = a
      · subst hc
        simp only [if_pos rfl] at h
        simpa using ih h
      · simp [hc] at h

theorem matchLit_self (p r : List Char) : matchLit p (p ++ r) = some r := by
  induction p with
  | nil => rfl
  | cons a p ih => simp [matchLit, ih]

theorem takeWhile_append_eq {p : Char → Bool} {w r : List Char}
    (hw : ∀ c ∈ w, p c = true)
    (hr : ∀ c, r.head? = some c → p c = false) :
    (w ++ r).takeWhile p = w := by
  induction w with
  | nil =>
    cases r with
    | nil => rfl
    | cons c t =>
      simp only [List.nil_append, List.takeWhile]
      rw [hr c rfl]
  | cons a w ih =>
    simp only [List.cons_append, List.takeWhile]
    rw [hw a (by simp)]
    simp only [List.cons.injEq, true_and]
    exact ih (fun c hc => hw c (by simp [hc]))

theorem dropWhile_as_drop (p : Char → Bool) (s : List Char) :
    s.drop (s.takeWhile p).length = s.dropWhile p := by
  induction s with
  | nil => rfl
  | cons c t ih =>
    simp only [List.takeWhile, List.dropWhile]
    cases hp : p c with
    | true => simpa using ih
    | false => simp

theorem skipWs1_eq {s w r : List Char} (h : skipWs1 s = some (w, r)) :
    s = w ++ r ∧ w ≠ [] ∧ (∀ c ∈ w, isPySpace c = true) := by
  simp only [skipWs1] at h
  by_cases he : (s.takeWhile isPySpace).isEmpty
  · simp [he] at h
  · simp only [he, Bool.false_eq_true, if_false, Option.some.injEq, Prod.mk.injEq] at h
    obtain ⟨hw, hr⟩ := h
    subst hw
    refine ⟨?_, by simpa [List.isEmpty_iff] using he, fun c hc => List.mem_takeWhile_imp hc⟩
    rw [← hr, dropWhile_as_drop, List.takeWhile_append_dropWhile]

theorem skipWs1_build {w r : List Char} (hne : w ≠ [])
    (hw : ∀ c ∈ w, isPySpace c = true)
    (hr : ∀ c, r.head? = some c → isPySpace c = false) :
    skipWs1 (w ++ r) = some (w, r) := by
  have ht : (w ++ r).takeWhile isPySpace = w := takeWhile_append_eq hw hr
  simp only [skipWs1, ht]
  rw [if_neg (by simpa [List.isEmpty_iff] using hne)]
  rw [List.drop_left]

theorem takeCap_eq {ae : Bool} {s v r : List Char} (h : takeCap ae s = some (v, r)) :
    s = v ++ '"' :: r ∧ (∀ c ∈ v, c ≠ '"') ∧ (ae = false → v ≠ []) := by
  simp only [takeCap] at h
  split at h
  · cases h
  · rename_i hguard
    split at h
    · rename_i c0 r0 hd
      simp only [Option.some.injEq, Prod.mk.injEq] at h
      obtain ⟨hv, hr⟩ := h
      subst hv
      subst hr
      refine ⟨?_, ?_, ?_⟩
      · rw [dropWhile_as_drop] at hd
        have hsplit := List.takeWhile_append_dropWhile (fun c => decide (c ≠ '"')) s
        rw [hd] at hsplit
        exact hsplit.symm
      · intro c hc
        have := List.mem_takeWhile_imp hc
        simpa using this
      · intro hae
        rw [hae] at hguard
        simpa [List.isEmpty_iff] using hguard
    · cases h

theorem takeCap_build {ae : Bool} {v r : List Char}
    (hv : ∀ c ∈ v, c ≠ '"') (hne : ae = true ∨ v ≠ []) :
    takeCap ae (v ++ '"' :: r) = some (v, r) := by
  have ht : (v ++ '"' :: r).takeWhile (fun c => c ≠ '"') = v := by
    refine takeWhile_append_eq (fun c hc => by simp [hv c hc]) ?_
    intro c hc
    simp only [List.head?] at hc
    cases hc
    simp
  have hg : (!ae && v.isEmpty) = false := by
    rcases hne with hae | hvne
    · simp [hae]
    · simp [List.isEmpty_iff, hvne]
  simp only [takeCap]
  rw [ht, hg]
  simp only [Bool.false_eq_true, if_false]
  rw [List.drop_left]
  rfl

theorem matchProp_eq {wp ae : Bool} {nm s : List Char} {pm : PropMatch}
    (h : matchProp wp nm ae s = some pm) :
    s = propLit wp ++ (pm.ws1 ++ (('"' :: (nm ++ ['"'])) ++
      (pm.ws2 ++ '"' :: (pm.value ++ '"' :: pm.rest))))
    ∧ pm.ws1 ≠ [] ∧ (∀ c ∈ pm.ws1, isPySpace c = true)
    ∧ pm.ws2 ≠ [] ∧ (∀ c ∈ pm.ws2, isPySpace c = true)
    ∧ (∀ c ∈ pm.value, c ≠ '"')
    ∧ (ae = false → pm.value ≠ []) := by
  rcases h1 : matchLit (propLit wp) s with _ | s1
  · simp [matchProp, h1] at h
  rcases h2 : skipWs1 s1 with _ | ⟨w1, s2⟩
  · simp [matchProp, h1, h2] at h
  rcases h3 : matchLit ('"' :: (nm ++ ['"'])) s2 with _ | s3
  · simp [matchProp, h1, h2, h3] at h
  rcases h4 : skipWs1 s3 with _ | ⟨w2, s4⟩
  · simp [matchProp, h1, h2, h3, h4] at h
  rcases h5 : matchLit ['"'] s4 with _ | s5
  · simp [matchProp, h1, h2, h3, h4, h5] at h
  rcases h6 : takeCap ae s5 with _ | ⟨v, rest⟩
  · simp [matchProp, h1, h2, h3, h4, h5, h6] at h
  have hh : matchProp wp nm ae s = some ⟨w1, w2, v, rest⟩ := by
    simp [matchProp, h1, h2, h3, h4, h5, h6]
  have hpm : pm = PropMatch.mk w1 w2 v rest := by
    have h7 := h.symm.trans hh
    exact Option.some.inj h7
  subst hpm
  obtain ⟨e2, hw1ne, hw1s⟩ := skipWs1_eq h2
  obtain ⟨e4, hw2ne, hw2s⟩ := skipWs1_eq h4
  obtain ⟨e6, hvq, hvne⟩ := takeCap_eq h6
  refine ⟨?_, hw1ne, hw1s, hw2ne, hw2s, hvq, hvne⟩
  rw [matchLit_eq h1, e2, matchLit_eq h3, e4, matchLit_eq h5, e6]
  simp [List.append_assoc]

theorem matchProp_build (wp ae : Bool) (nm w1 w2 v r : List Char)
    (hw1 : w1 ≠ []) (hw1s : ∀ c ∈ w1, isPySpace c = true)
    (hw2 : w2 ≠ []) (hw2s : ∀ c ∈ w2, isPySpace c = true)
    (hv : ∀ c ∈ v, c ≠ '"')
    (hne : ae = true ∨ v ≠ []) :
    matchProp wp nm ae (propLit wp ++ (w1 ++ (('"' :: (nm ++ ['"'])) ++
      (w2 ++ '"' :: (v ++ '"' :: r))))) = some ⟨w1, w2, v, r⟩ := by
  have hq1 : skipWs1 (w1 ++ (('"' :: (nm ++ ['"'])) ++ (w2 ++ '"' :: (v ++ '"' :: r))))
      = some (w1, ('"' :: (nm ++ ['"'])) ++ (w2 ++ '"' :: (v ++ '"' :: r))) :=
    skipWs1_build hw1 hw1s (by intro c hc; cases hc; rfl)
  have hq2 : skipWs1 (w2 ++ '"' :: (v ++ '"' :: r)) = some (w2, '"' :: (v ++ '"' :: r)) :=
    skipWs1_build hw2 hw2s (by intro c hc; cases hc; rfl)
  have hq3 : matchLit ['"'] ('"' :: (v ++ '"' :: r)) = some (v ++ '"' :: r) :=
    matchLit_self ['"'] (v ++ '"' :: r)
  simp only [matchProp, matchLit_self, hq1, hq2, hq3, takeCap_build hv hne]

theorem searchProp_eq {wp ae : Bool} {nm : List Char} {s pre : List Char}
    {pm : PropMatch} (h : searchProp wp nm ae s = some (pre, pm)) :
    ∃ suf, s = pre ++ suf ∧ matchProp wp nm ae suf = some pm := by
  induction s generalizing pre with
  | nil => cases h
  | cons c t ih =>
    simp only [searchProp] at h
    rcases hm : matchProp wp nm ae (c :: t) with _ | pm'
    · rw [hm] at h
      rcases hs : searchProp wp nm ae t with _ | ⟨pre', pm''⟩
      · rw [hs] at h; cases h
      · rw [hs] at h
        simp only [Option.some.injEq, Prod.mk.injEq] at h
        obtain ⟨hpre, hpm⟩ := h
        subst hpm
        obtain ⟨suf, hsuf, hm'⟩ := ih hs
        exact ⟨suf, by rw [← hpre, hsuf]; rfl, hm'⟩
    · rw [hm] at h
      simp only [Option.some.injEq, Prod.mk.injEq] at h
      obtain ⟨hpre, hpm⟩ := h
      subst hpm
      exact ⟨c :: t, by rw [← hpre]; rfl, hm⟩

theorem propLit_ne_nil (wp : Bool) : propLit wp ≠ [] := by
  cases wp <;> simp [propLit, chars]

theorem searchProp_isSome_of_split {wp ae : Bool} {nm : List Char}
    {u v : List Char} {pm : PropMatch}
    (hm : matchProp wp nm ae v = some pm) :
    ∃ x, searchProp wp nm ae (u ++ v) = some x := by
  induction u with
  | nil =>
    have hv : v ≠ [] := by
      intro hnil
      subst hnil
      have hnone : matchProp wp nm ae [] = none := by cases wp <;> rfl
      rw [hnone] at hm
      cases hm
    rcases v with _ | ⟨c, t⟩
    · exact absurd rfl hv
    · refine ⟨([], pm), ?_⟩
      rw [List.nil_append]
      simp only [searchProp, hm]
  | cons c u ih =>
    obtain ⟨⟨pre, pm'⟩, hx⟩ := ih
    rw [List.cons_append]
    rcases hm2 : matchProp wp nm ae (c :: (u ++ v)) with _ | pm2
    · refine ⟨(c :: pre, pm'), ?_⟩
      simp only [searchProp, hm2, hx]
    · refine ⟨([], pm2), ?_⟩
      simp only [searchProp, hm2]

theorem pysplitGo_flatten (s acc : List Char) :
    (pysplitGo s acc).flatten = acc.reverse ++ s := by
  induction s generalizing acc with
  | nil => simp [pysplitGo]
  | cons c rest ih =>
    simp only [pysplitGo]
    by_cases hl : lookSplit (c :: rest) = true
    · rw [if_pos hl, List.flatten_cons, ih [c]]
      simp
    · rw [if_neg hl, ih (c :: acc)]
      simp

theorem mem_flatten_split {α : Type} {x : List α} {L : List (List α)}
    (h : x ∈ L) : ∃ u v, L.flatten = u ++ (x ++ v) := by
  induction L with
  | nil => cases h
  | cons a t ih =>
    rcases List.mem_cons.mp h with rfl | hmem
    · exact ⟨[], t.flatten, by simp⟩
    · obtain ⟨u, v, huv⟩ := ih hmem
      exact ⟨a ++ u, v, by simp [huv, List.append_assoc]⟩

theorem docBlocks_infix {b c : List Char} (h : b ∈ docBlocks c) :
    ∃ u v, c = u ++ (b ++ v) := by
  have hmem : b ∈ pysplit c := List.mem_of_mem_tail h
  obtain ⟨u, v, huv⟩ := mem_flatten_split hmem
  refine ⟨u, v, ?_⟩
  have hfl : (pysplit c).flatten = c := by
    have := pysplitGo_flatten c []
    simpa [pysplit] using this
  rw [← hfl, huv]

theorem dictGet_dictInsert_ne {α : Type} {m : List (List Char × α)}
    {k0 k : List Char} {v : α} (h : dictGet (dictInsert m k0 v) k ≠ none) :
    k = k0 ∨ dictGet m k ≠ none := by
  induction m with
  | nil =>
    simp only [dictInsert, dictGet] at h
    by_cases hk : k0 = k
    · exact Or.inl hk.symm
    · simp [hk] at h
  | cons a t ih =>
    obtain ⟨ka, va⟩ := a
    simp only [dictInsert] at h
    by_cases hka : ka = k0
    · rw [if_pos hka] at h
      simp only [dictGet] at h
      by_cases hk : ka = k
      · exact Or.inl (hk.symm.trans hka)
      · rw [if_neg hk] at h
        right
        simp only [dictGet]
        rw [if_neg hk]
        exact h
    · rw [if_neg hka] at h
      simp only [dictGet] at h
      by_cases hk : ka = k
      · right
        simp only [dictGet]
        rw [if_pos hk]
        simp
      · rw [if_neg hk] at h
        rcases ih h with h1 | h2
        · exact Or.inl h1
        · right
          simp only [dictGet]
          rw [if_neg hk]
          exact h2

theorem recordsGo_origin {bs : List (List Char)} {m : List (List Char × ComponentRecord)}
    {k : List Char} (h : dictGet (recordsGo bs m) k ≠ none) :
    (∃ b ∈ bs, ∃ r, parseBlockRecord b = some (k, r)) ∨ dictGet m k ≠ none := by
  induction bs generalizing m with
  | nil => exact Or.inr h
  | cons b bs ih =>
    simp only [recordsGo] at h
    rcases hp : parseBlockRecord b with _ | ⟨k', r'⟩
    · rw [hp] at h
      rcases ih h with ⟨b0, hb0, hr0⟩ | hm
      · exact Or.inl ⟨b0, List.mem_cons_of_mem b hb0, hr0⟩
      · exact Or.inr hm
    · rw [hp] at h
      rcases ih h with ⟨b0, hb0, hr0⟩ | hm
      · exact Or.inl ⟨b0, List.mem_cons_of_mem b hb0, hr0⟩
      · rcases dictGet_dictInsert_ne hm with rfl | hm2
        · exact Or.inl ⟨b, List.mem_cons_self b bs, r', hp⟩
        · exact Or.inr hm2

theorem parseBlockRecord_lcsc {b k : List Char} {r : ComponentRecord}
    (h : parseBlockRecord b = some (k, r)) :
    ∃ pre pm, searchProp true (chars "LCSC") false b = some (pre, pm) ∧
      pm.value = k := by
  rcases hs : searchSymbolName b with _ | nm
  · simp [parseBlockRecord, hs] at h
  by_cases hsub : isSubBlockName nm = true
  · simp [parseBlockRecord, hs, hsub] at h
  rcases hl : searchProp true (chars "LCSC") false b with _ | ⟨pre, pm⟩
  · simp [parseBlockRecord, hs, hsub, hl] at h
  simp only [parseBlockRecord, hs, hsub, hl, Bool.false_eq_true, if_false,
    Option.some.injEq, Prod.mk.injEq] at h
  exact ⟨pre, pm, rfl, h.1⟩

theorem tailTwoGroups_iff (s : List Char) :
    tailTwoGroups s = true ↔ ∃ d1 d2, s = d1 ++ '_' :: d2 ∧ d1 ≠ [] ∧ d2 ≠ [] ∧
      (∀ c ∈ d1, Char.isDigit c = true) ∧ (∀ c ∈ d2, Char.isDigit c = true) := by
  constructor
  · intro h
    simp only [tailTwoGroups] at h
    split at h
    · rename_i rest hd
      simp only [Bool.and_eq_true, Bool.not_eq_true, List.all_eq_true] at h
      obtain ⟨⟨hd1, hrest⟩, hall⟩ := h
      refine ⟨s.takeWhile Char.isDigit, rest, ?_, ?_, ?_, ?_, hall⟩
      · rw [dropWhile_as_drop] at hd
        have hsplit := List.takeWhile_append_dropWhile Char.isDigit s
        rw [hd] at hsplit
        exact hsplit.symm
      · simpa [List.isEmpty_iff] using hd1
      · simpa [List.isEmpty_iff] using hrest
      · intro c hc
        exact List.mem_takeWhile_imp hc
    · cases h
  · rintro ⟨d1, d2, rfl, hd1, hd2, hda, hdb⟩
    have ht : (d1 ++ '_' :: d2).takeWhile Char.isDigit = d1 := by
      refine takeWhile_append_eq hda ?_
      intro c hc
      cases hc
      rfl
    simp only [tailTwoGroups, ht, List.drop_left]
    simp only [Bool.and_eq_true, Bool.not_eq_true, List.all_eq_true]
    refine ⟨⟨?_, ?_⟩, hdb⟩
    · simpa [List.isEmpty_iff] using hd1
    · simpa [List.isEmpty_iff] using hd2

theorem subScan_iff (t : List Char) :
    subScan t = true ↔ ∃ pre d1 d2, t = pre ++ '_' :: (d1 ++ '_' :: d2) ∧
      d1 ≠ [] ∧ d2 ≠ [] ∧ (∀ c ∈ d1, Char.isDigit c = true) ∧
      (∀ c ∈ d2, Char.isDigit c = true) ∧ '\n' ∉ pre := by
  induction t with
  | nil =>
    constructor
    · intro h
      cases h
    · rintro ⟨pre, d1, d2, heq, -⟩
      exfalso
      cases pre <;> simp at heq
  | cons c rest ih =>
    constructor
    · intro h
      simp only [subScan, Bool.or_eq_true, Bool.and_eq_true, decide_eq_true_eq] at h
      rcases h with ⟨rfl, htail⟩ | ⟨hc, hsc⟩
      · obtain ⟨d1, d2, hrest, hd1, hd2, hda, hdb⟩ := (tailTwoGroups_iff rest).mp htail
        exact ⟨[], d1, d2, by rw [hrest]; rfl, hd1, hd2, hda, hdb, by simp⟩
      · obtain ⟨pre, d1, d2, heq, hd1, hd2, hda, hdb, hnl⟩ := ih.mp hsc
        refine ⟨c :: pre, d1, d2, by rw [heq]; rfl, hd1, hd2, hda, hdb, ?_⟩
        simp only [List.mem_cons, not_or]
        exact ⟨fun hcn => hc hcn.symm, hnl⟩
    · rintro ⟨pre, d1, d2, heq, hd1, hd2, hda, hdb, hnl⟩
      cases pre with
      | nil =>
        simp only [List.nil_append, List.cons.injEq] at heq
        obtain ⟨rfl, rfl⟩ := heq
        simp only [subScan, Bool.or_eq_true, Bool.and_eq_true, decide_eq_true_eq]
        exact Or.inl ⟨by simp, (tailTwoGroups_iff _).mpr ⟨d1, d2, rfl, hd1, hd2, hda, hdb⟩⟩
      | cons p pre' =>
        simp only [List.cons_append, List.cons.injEq] at heq
        obtain ⟨rfl, hrest⟩ := heq
        simp only [List.mem_cons, not_or] at hnl
        simp only [subScan, Bool.or_eq_true, Bool.and_eq_true, decide_eq_true_eq]
        refine Or.inr ⟨fun hcn => hnl.1 hcn.symm, ?_⟩
        exact ih.mpr ⟨pre', d1, d2, hrest, hd1, hd2, hda, hdb, hnl.2⟩

theorem mem_stripTrailNl {c : Char} {s : List Char} (h : c ∈ stripTrailNl s) :
    c ∈ s := by
  unfold stripTrailNl at h
  split at h
  · rename_i r heq
    rw [List.mem_reverse] at h
    have hs : c ∈ s.reverse := by
      rw [heq]
      exact List.mem_cons_of_mem _ h
    rwa [List.mem_reverse] at hs
  · exact h

theorem processBlock_of_not_target {jlcId : List Char} {a : ApiDetails}
    {b : List Char} (h : isTargetBlock jlcId b = false) :
    processBlock jlcId a b = (b, false) := by
  rcases hs : searchSymbolName b with _ | nm
  · simp [processBlock, hs]
  by_cases hsub : isSubBlockName nm = true
  · simp [processBlock, hs, hsub]
  rcases hl : searchProp true (chars "LCSC") false b with _ | ⟨pre, pm⟩
  · simp [processBlock, hs, hsub, hl]
  have hne : ¬(pm.value = jlcId) := by
    intro heq
    simp [isTargetBlock, hs, hsub, hl, heq] at h
  simp [processBlock, hs, hsub, hl, hne]

theorem updateTextCore_no_target {content jlcId : List Char} {a : ApiDetails}
    (h : ∀ b ∈ docBlocks content, isTargetBlock jlcId b = false) :
    (updateTextCore content jlcId a).2 = false := by
  have hall : ∀ x ∈ (docBlocks content).map (processBlock jlcId a), x.2 = false := by
    intro x hx
    rw [List.mem_map] at hx
    obtain ⟨b, hb, rfl⟩ := hx
    rw [processBlock_of_not_target (h b hb)]
  show ((docBlocks content).map (processBlock jlcId a)).any Prod.snd = false
  cases hany : ((docBlocks content).map (processBlock jlcId a)).any Prod.snd
  · rfl
  · obtain ⟨x, hx, hpx⟩ := List.any_eq_true.mp hany
    rw [hall x hx] at hpx
    cases hpx

/-
Claim theorems.
-/

/-- Claim C2, amended: every id attributed to a component record by
get_component_details_from_symbol arises from an occurrence of the LCSC
property pattern, with some nonempty whitespace runs between its tokens,
somewhere in the raw document text; the raw grep of
get_installed_components recognises only the single-blank spelling of that
pattern, so it can miss a record id whose property uses other whitespace. -/
theorem C2_record_ids_from_property_occurrence
    (content k : List Char) (rec : ComponentRecord)
    (h : dictGet (get_component_details_from_symbol (some content)) k = some rec) :
    ∃ w1 w2 u v, w1 ≠ [] ∧ (∀ c ∈ w1, isPySpace c = true) ∧
      w2 ≠ [] ∧ (∀ c ∈ w2, isPySpace c = true) ∧
      content = u ++ ((chars "(property" ++ (w1 ++ (('"' :: (chars "LCSC" ++ ['"'])) ++
        (w2 ++ '"' :: (k ++ ['"']))))) ++ v) := by
  have h' : dictGet (recordsGo (docBlocks content) []) k = some rec := h
  have hne : dictGet (recordsGo (docBlocks content) []) k ≠ none := by
    rw [h']
    simp
  rcases recordsGo_origin hne with ⟨b, hb, r, hpr⟩ | hnil
  · obtain ⟨pre, pm, hsp, hval⟩ := parseBlockRecord_lcsc hpr
    obtain ⟨suf, hbsplit, hmp⟩ := searchProp_eq hsp
    obtain ⟨hdec, hw1ne, hw1s, hw2ne, hw2s, hvq, hvne⟩ := matchProp_eq hmp
    obtain ⟨u0, v0, hc⟩ := docBlocks_infix hb
    refine ⟨pm.ws1, pm.ws2, u0 ++ pre, pm.rest ++ v0, hw1ne, hw1s, hw2ne, hw2s, ?_⟩
    rw [hc, hbsplit, hdec, hval]
    simp [List.append_assoc, propLit]
  · simp [dictGet] at hnil

/-- Claim C2, witness for the amended theorem at a concrete document. -/
theorem C2_record_ids_witness :
    ∃ w1 w2 u v, w1 ≠ [] ∧ (∀ c ∈ w1, isPySpace c = true) ∧
      w2 ≠ [] ∧ (∀ c ∈ w2, isPySpace c = true) ∧
      exampleDocTwoBlanks = u ++ ((chars "(property" ++ (w1 ++
        (('"' :: (chars "LCSC" ++ ['"'])) ++
        (w2 ++ '"' :: (chars "C1" ++ ['"']))))) ++ v) :=
  C2_record_ids_from_property_occurrence exampleDocTwoBlanks (chars "C1")
    ⟨chars "AAA", chars "AAA", []⟩ (by decide)

/-- Claim C2, counterexample to the claim as stated: in a document whose
LCSC property carries two blanks, the record map of
get_component_details_from_symbol holds the id while the raw grep of
get_installed_components returns nothing, so the grep result is not a
superset of the record keys. -/
theorem C2_counterexample :
    get_installed_components (some exampleDocTwoBlanks) = [] ∧
    dictGet (get_component_details_from_symbol (some exampleDocTwoBlanks))
      (chars "C1") ≠ none := by
  constructor
  · decide
  · decide

/-- Claim C7, counterexample to the claim as stated: a block whose name
carries an interior newline in front of a suffix of the sub-block shape
ends in underscore-digits-underscore-digits, yet it is not excluded and
it does contribute a component record, because the dot of the anchored
regex cannot cross the newline. -/
theorem C7_counterexample :
    chars "A\nB_1_1" = chars "A\nB" ++ '_' :: (chars "1" ++ '_' :: chars "1") ∧
    (∀ c ∈ chars "1", Char.isDigit c = true) ∧
    isSubBlockName (chars "A\nB_1_1") = false ∧
    dictGet (get_component_details_from_symbol (some exampleDocNewlineName))
      (chars "C7X") ≠ none := by
  refine ⟨by decide, by decide, by decide, by decide⟩

/-- Claim C7, amended: a block name is excluded as a sub-block exactly when,
after dropping at most one trailing newline, it ends in underscore, digits,
underscore, digits with no newline anywhere in front of that suffix. -/
theorem C7_subblock_characterisation (s : List Char) :
    isSubBlockName s = true ↔
      ∃ pre d1 d2, stripTrailNl s = pre ++ '_' :: (d1 ++ '_' :: d2) ∧
        d1 ≠ [] ∧ d2 ≠ [] ∧ (∀ c ∈ d1, Char.isDigit c = true) ∧
        (∀ c ∈ d2, Char.isDigit c = true) ∧ '\n' ∉ pre := by
  constructor
  · intro h
    simp only [isSubBlockName, reMatchSubName, Bool.and_eq_true] at h
    exact (subScan_iff _).mp h.2
  · intro hex
    have hsc : subScan (stripTrailNl s) = true := (subScan_iff _).mpr hex
    have hus : '_' ∈ stripTrailNl s := by
      obtain ⟨pre, d1, d2, heq, -⟩ := hex
      rw [heq]
      simp
    have hu : '_' ∈ s := mem_stripTrailNl hus
    simp only [isSubBlockName, reMatchSubName, Bool.and_eq_true]
    exact ⟨by simpa using hu, hsc⟩

/-- Claim C7, witness for the amended theorem: the name FOO underscore one
underscore one is excluded. -/
theorem C7_subblock_witness : isSubBlockName (chars "FOO_1_1") = true :=
  (C7_subblock_characterisation (chars "FOO_1_1")).mpr
    ⟨chars "FOO", chars "1", chars "1", by decide, by decide, by decide,
      by decide, by decide, by decide⟩

/-- Claim C9: a missing document yields the empty collection for all three
extraction operations, with no error. -/
theorem C9_missing_file_empty :
    get_installed_components none = [] ∧
    get_installed_components_with_part_numbers none = [] ∧
    get_component_details_from_symbol none = [] :=
  ⟨rfl, rfl, rfl⟩

/-- Claim C10: remove_component_from_symbol_lib always reports False and
never changes the file, for every file state and id. -/
theorem C10_remove_is_noop (file : Option (List Char)) (jlcId : List Char) :
    remove_component_from_symbol_lib file jlcId = (file, false) := by
  cases file <;> rfl

/-- Claim C8: any modelled failure of the rewrite (a read failure before
the transformation or a write failure after it) is absorbed at the
boundary of update_symbol_in_file, which reports no change rather than
propagating the error. -/
theorem C8_failures_absorbed (fs : FileSys) (jlcId : List Char)
    (api : Option ApiDetails)
    (h : fs.readFails = true ∨ fs.writeFails = true) :
    (update_symbol_in_file fs jlcId api).2 = false := by
  obtain ⟨c, rf, wf⟩ := fs
  cases c with
  | none => rfl
  | some content =>
    cases api with
    | none => rfl
    | some a =>
      simp only [update_symbol_in_file]
      rcases h with h | h
      · simp only at h
        rw [h]
        simp
      · simp only at h
        rw [h]
        by_cases hrf : rf = true
        · rw [if_pos hrf]
        · rw [if_neg hrf]
          by_cases hu : (updateTextCore content jlcId a).2 = true
          · rw [if_pos hu, if_pos rfl]
          · rw [if_neg hu]

/-- Claim C8, witness: a read failure on a document that would otherwise be
rewritten still reports no change. -/
theorem C8_failures_witness :
    (update_symbol_in_file ⟨some exampleDocOneBlock, true, false⟩ (chars "C99")
      (some exampleApiDescOnly)).2 = false :=
  C8_failures_absorbed ⟨some exampleDocOneBlock, true, false⟩ (chars "C99")
    (some exampleApiDescOnly) (Or.inl rfl)

/-- Claim C3, counterexample to the claim as stated: a keyword property
whose value is the id followed by a blank is not exactly the bare id, yet
the keyword rewrite fires and changes the block, because the source
compares the stripped value. -/
theorem C3_counterexample :
    searchProp true (chars "ki_keywords") true exampleBlockKwPadded =
      some (chars "(symbol \"KB1\" ",
        ⟨[' '], [' '], chars "C99 ", chars " (at 0 0 0)))"⟩) ∧
    chars "C99 " ≠ chars "C99" ∧
    (keywordStep exampleBlockKwPadded (chars "C99") (chars "ACME") []).2 = true ∧
    (keywordStep exampleBlockKwPadded (chars "C99") (chars "ACME") []).1 ≠
      exampleBlockKwPadded := by
  refine ⟨by decide, by decide, by decide, by decide⟩

/-- Claim C3, amended: the keyword rewrite fires exactly when the keyword
list grew beyond the bare id (brand or model nonempty) and the block has a
keyword property whose value equals the bare id after stripping surrounding
whitespace; when it does not fire the block is left unchanged. -/
theorem C3_keyword_guard (b jlcId brand model : List Char) :
    ((keywordStep b jlcId brand model).2 = true ↔
      ((brand ≠ [] ∨ model ≠ []) ∧ ∃ pre pm,
        searchProp true (chars "ki_keywords") true b = some (pre, pm) ∧
        pyStrip pm.value = jlcId)) ∧
    ((keywordStep b jlcId brand model).2 = false →
      (keywordStep b jlcId brand model).1 = b) := by
  rcases hs : searchProp true (chars "ki_keywords") true b with _ | ⟨pre, pm⟩
  · by_cases hb : brand.isEmpty <;> by_cases hm : model.isEmpty <;>
      simp [keywordStep, hs, hb, hm, List.isEmpty_iff]
  · by_cases hstrip : pyStrip pm.value = jlcId
    · by_cases hb : brand.isEmpty <;> by_cases hm : model.isEmpty <;>
        simp [keywordStep, hs, hb, hm, hstrip, List.isEmpty_iff]
      · exact ⟨List.isEmpty_iff.mp hb, List.isEmpty_iff.mp hm⟩
      · exact ⟨Or.inr (by simpa [List.isEmpty_iff] using hm), pre, pm, ⟨rfl, rfl⟩, hstrip⟩
      · exact ⟨Or.inl (by simpa [List.isEmpty_iff] using hb), pre, pm, ⟨rfl, rfl⟩, hstrip⟩
      · exact ⟨Or.inl (by simpa [List.isEmpty_iff] using hb), pre, pm, ⟨rfl, rfl⟩, hstrip⟩
    · by_cases hb : brand.isEmpty <;> by_cases hm : model.isEmpty <;>
        simp [keywordStep, hs, hb, hm, hstrip, List.isEmpty_iff]

/-- Claim C3, witness for the amended theorem: at a block whose keyword
value carries padding, the characterisation yields the fired rewrite. -/
theorem C3_keyword_witness :
    (keywordStep exampleBlockKwPadded (chars "C99") (chars "ACME") []).2 = true :=
  (C3_keyword_guard exampleBlockKwPadded (chars "C99") (chars "ACME") []).1.mpr
    ⟨Or.inl (by decide),
      chars "(symbol \"KB1\" ",
      ⟨[' '], [' '], chars "C99 ", chars " (at 0 0 0)))"⟩,
      by decide, by decide⟩

/-- Claim C6: the Value rewrite fires exactly when a nonempty candidate
value was derived from the details and the block has a Value property whose
current value is longer than six characters and fully matches the
part-number character class; when it does not fire the block is left
unchanged. -/
theorem C6_value_guard (b : List Char) (a : ApiDetails) :
    ((valueStep b (extract_component_value a (determine_component_type a))).2 = true ↔
      ((∃ v, extract_component_value a (determine_component_type a) = some v ∧ v ≠ []) ∧
        ∃ pre pm, searchProp false (chars "Value") false b = some (pre, pm) ∧
          pm.value.length > 6 ∧ matchesPartClass pm.value = true)) ∧
    ((valueStep b (extract_component_value a (determine_component_type a))).2 = false →
      (valueStep b (extract_component_value a (determine_component_type a))).1 = b) := by
  rcases hv : extract_component_value a (determine_component_type a) with _ | v
  · simp [valueStep, hv]
  · by_cases hve : v.isEmpty
    · have hvn : v = [] := List.isEmpty_iff.mp hve
      subst hvn
      simp [valueStep, hv]
    · have hvn : v ≠ [] := by simpa [List.isEmpty_iff] using hve
      rcases hsp : searchProp false (chars "Value") false b with _ | ⟨pre, pm⟩
      · simp [valueStep, hv, hve, hsp]
      · by_cases hlk : looksLikeRawPart pm.value = true
        · have hlk' := hlk
          simp only [looksLikeRawPart, Bool.and_eq_true, decide_eq_true_eq] at hlk'
          obtain ⟨hlen, hcls⟩ := hlk'
          have hstep : valueStep b (some v) =
              (rebuildProp false (chars "Value") pre pm v, true) := by
            simp [valueStep, hve, hsp, hlk]
          rw [hstep]
          refine ⟨⟨fun _ => ⟨⟨v, rfl, hvn⟩, pre, pm, rfl, hlen, hcls⟩, fun _ => rfl⟩, ?_⟩
          intro hfalse
          exact absurd hfalse (by simp)
        · have hstep : valueStep b (some v) = (b, false) := by
            simp [valueStep, hve, hsp, hlk]
          rw [hstep]
          refine ⟨⟨fun hfalse => absurd hfalse (by simp), ?_⟩, fun _ => rfl⟩
          rintro ⟨-, pre2, pm2, hsp2, hlen2, hcls2⟩
          have hpp := Option.some.inj hsp2
          cases hpp
          exact absurd (by simp [looksLikeRawPart, hlen2, hcls2]) hlk

/-- Claim C6, witness: a resistor candidate value and a raw part number in
the Value field make the rewrite fire. -/
theorem C6_value_witness :
    (valueStep exampleBlockValue
      (extract_component_value exampleApiResistor
        (determine_component_type exampleApiResistor))).2 = true :=
  (C6_value_guard exampleBlockValue exampleApiResistor).1.mpr
    ⟨⟨chars "10kΩ", by decide, by decide⟩,
      ['('], ⟨[' '], [' '], chars "0805W8F1002T5E", chars " (at 0 0 0))"⟩,
      by decide, by decide, by decide⟩

/-- Claim C4: the mutator returns no change and leaves the file state
untouched whenever the details are absent or no non-sub block carries the
id, and in general the new text is written back only when a change was
reported, so an unchanged outcome always keeps the original file state. -/
theorem C4_noop_and_write_discipline (fs : FileSys) (jlcId : List Char)
    (api : Option ApiDetails)
    (h : api = none ∨ fs.content = none ∨
      ∃ c, fs.content = some c ∧ ∀ b ∈ docBlocks c, isTargetBlock jlcId b = false) :
    update_symbol_in_file fs jlcId api = (fs, false) ∧
    ∀ (fs2 : FileSys) (j2 : List Char) (a2 : Option ApiDetails),
      (update_symbol_in_file fs2 j2 a2).2 = false →
      (update_symbol_in_file fs2 j2 a2).1 = fs2 := by
  constructor
  · rcases h with rfl | hnone | ⟨c, hc, hall⟩
    · rcases hcont : fs.content with _ | c
      · simp [update_symbol_in_file, hcont]
      · simp [update_symbol_in_file, hcont]
    · simp [update_symbol_in_file, hnone]
    · rcases api with _ | a
      · simp [update_symbol_in_file, hc]
      · by_cases hrf : fs.readFails = true
        · simp [update_symbol_in_file, hc, hrf]
        · have hupd : (updateTextCore c jlcId a).2 = false :=
            updateTextCore_no_target hall
          simp [update_symbol_in_file, hc, hrf, hupd]
  · intro fs2 j2 a2 h2
    obtain ⟨c2, rf2, wf2⟩ := fs2
    rcases c2 with _ | c2
    · rfl
    rcases a2 with _ | a2
    · rfl
    simp only [update_symbol_in_file] at h2 ⊢
    by_cases hrf : rf2 = true
    · simp [hrf]
    · simp only [hrf, Bool.false_eq_true, if_false] at h2 ⊢
      by_cases hu : (updateTextCore c2 j2 a2).2 = true
      · simp only [hu, if_true] at h2 ⊢
        by_cases hwf : wf2 = true
        · simp [hwf]
        · simp [hwf] at h2
      · simp [hu]

/-- Claim C4, witness: a document none of whose blocks carries the id is
returned unchanged with no change reported. -/
theorem C4_noop_witness :
    update_symbol_in_file ⟨some exampleDocTwoBlocks, false, false⟩ (chars "CZZ")
      (some exampleApiDescOnly) =
      (⟨some exampleDocTwoBlocks, false, false⟩, false) :=
  (C4_noop_and_write_discipline ⟨some exampleDocTwoBlocks, false, false⟩
    (chars "CZZ") (some exampleApiDescOnly)
    (Or.inr (Or.inr ⟨exampleDocTwoBlocks, rfl, by decide⟩))).1

/-- Claim C5: the rewritten document is the original header followed by the
per-block results in order, and every block that is not the matched target
is passed through byte for byte. -/
theorem C5_mutation_isolation (content jlcId : List Char) (a : ApiDetails) :
    (updateTextCore content jlcId a).1 =
      docHeader content ++
        ((docBlocks content).map (fun b => (processBlock jlcId a b).1)).flatten ∧
    ∀ i (h1 : i < (docBlocks content).length)
      (h2 : i < ((docBlocks content).map (fun b => (processBlock jlcId a b).1)).length),
      isTargetBlock jlcId ((docBlocks content).get ⟨i, h1⟩) = false →
      ((docBlocks content).map (fun b => (processBlock jlcId a b).1)).get ⟨i, h2⟩ =
        (docBlocks content).get ⟨i, h1⟩ := by
  constructor
  · simp only [updateTextCore, List.map_map]
    rfl
  · intro i h1 h2 htarget
    simp only [List.get_eq_getElem, List.getElem_map] at htarget ⊢
    rw [processBlock_of_not_target htarget]

/-- Claim C5, witness: in a two-block document the block not carrying the
id is preserved unchanged by the rewrite pass. -/
theorem C5_isolation_witness :
    ((docBlocks exampleDocTwoBlocks).map
      (fun b => (processBlock (chars "C11") exampleApiDescOnly b).1)).get
        ⟨1, by decide⟩ = (docBlocks exampleDocTwoBlocks).get ⟨1, by decide⟩ :=
  (C5_mutation_isolation exampleDocTwoBlocks (chars "C11") exampleApiDescOnly).2 1
    (by decide) (by decide) (by decide)

set_option maxRecDepth 400000 in
/-- Claim C1, counterexample to the claim as stated: on a document whose
matched block has Value, Description and LCSC properties, with details
carrying only a description, both the first and the second call of the
mutator report a change, because the description rewrite is applied, and
counted as a change, whenever the property exists and the description is
nonempty, regardless of whether the text differs. -/
theorem C1_counterexample :
    (update_symbol_in_file ⟨some exampleDocOneBlock, false, false⟩ (chars "C99")
      (some exampleApiDescOnly)).2 = true ∧
    (update_symbol_in_file
      (update_symbol_in_file ⟨some exampleDocOneBlock, false, false⟩ (chars "C99")
        (some exampleApiDescOnly)).1 (chars "C99") (some exampleApiDescOnly)).2 =
      true := by
  refine ⟨by decide, by decide⟩

/-- Claim C1, amended: the changed flag records that a rewrite was applied,
not that the text differed, so twice-calling is not flag-idempotent: once
the description rewrite has fired for a nonempty description whose cleaned
form is quote free, it fires again, and reports a change again, when
applied to its own output. -/
theorem C1_descStep_refires (b descRaw : List Char)
    (hne : descRaw ≠ [])
    (hq : ∀ c ∈ cleanDescription descRaw, c ≠ '"')
    (h : (descStep b descRaw).2 = true) :
    (descStep (descStep b descRaw).1 descRaw).2 = true := by
  have hne' : descRaw.isEmpty = false := by simpa [List.isEmpty_iff] using hne
  rcases hs : searchProp true (chars "Description") true b with _ | ⟨pre, pm⟩
  · rcases hd : searchDatasheetEnd b 0 with _ | endPos
    · simp [descStep, hne', hs, hd] at h
    · have hstep : descStep b descRaw =
          (b.take endPos ++ descTemplate (cleanDescription descRaw) ++
            b.drop endPos, true) := by
        simp [descStep, hne', hs, hd]
      rw [hstep]
      have hA : chars "\n    (property \"Description\" \"" =
          chars "\n    " ++ (propLit true ++ ([' '] ++
            (('"' :: (chars "Description" ++ ['"'])) ++ ([' '] ++ ['"'])))) := by
        decide
      have hB : chars "\" (id 6) (at 0 0 0)\n      (effects (font (size 1.27 1.27)) hide)\n    )" =
          '"' :: chars " (id 6) (at 0 0 0)\n      (effects (font (size 1.27 1.27)) hide)\n    )" := by
        decide
      have hb1 : b.take endPos ++ descTemplate (cleanDescription descRaw) ++
            b.drop endPos =
          (b.take endPos ++ chars "\n    ") ++
            (propLit true ++ ([' '] ++ (('"' :: (chars "Description" ++ ['"'])) ++
              ([' '] ++ '"' :: (cleanDescription descRaw ++ '"' ::
                (chars " (id 6) (at 0 0 0)\n      (effects (font (size 1.27 1.27)) hide)\n    )" ++
                  b.drop endPos)))))) := by
        rw [descTemplate, hA, hB]
        simp [List.append_assoc]
      rw [hb1]
      have hmatch := matchProp_build true true (chars "Description") [' '] [' ']
        (cleanDescription descRaw)
        (chars " (id 6) (at 0 0 0)\n      (effects (font (size 1.27 1.27)) hide)\n    )" ++
          b.drop endPos)
        (by decide) (by decide) (by decide) (by decide) hq (Or.inl rfl)
      obtain ⟨⟨pre2, pm2⟩, hsearch⟩ :=
        @searchProp_isSome_of_split true true (chars "Description")
          (b.take endPos ++ chars "\n    ") _ _ hmatch
      simp only [descStep, hne', Bool.false_eq_true, if_false]
      rw [hsearch]
  · obtain ⟨suf, hbsplit, hmp⟩ := searchProp_eq hs
    obtain ⟨hdec, hw1ne, hw1s, hw2ne, hw2s, hvq, hvne⟩ := matchProp_eq hmp
    have hstep : descStep b descRaw =
        (rebuildProp true (chars "Description") pre pm (cleanDescription descRaw),
          true) := by
      simp [descStep, hne', hs]
    rw [hstep]
    have hr : rebuildProp true (chars "Description") pre pm (cleanDescription descRaw) =
        pre ++ (propLit true ++ (pm.ws1 ++ (('"' :: (chars "Description" ++ ['"'])) ++
          (pm.ws2 ++ '"' :: (cleanDescription descRaw ++ '"' :: pm.rest))))) := by
      simp [rebuildProp, List.append_assoc]
    rw [hr]
    have hmatch := matchProp_build true true (chars "Description") pm.ws1 pm.ws2
      (cleanDescription descRaw) pm.rest hw1ne hw1s hw2ne hw2s hq (Or.inl rfl)
    obtain ⟨⟨pre2, pm2⟩, hsearch⟩ :=
      @searchProp_isSome_of_split true true (chars "Description") pre _ _ hmatch
    simp only [descStep, hne', Bool.false_eq_true, if_false]
    rw [hsearch]

/-- Claim C1, witness for the amended theorem: the description rewrite,
applied to its own output, reports a change again. -/
theorem C1_descStep_witness :
    (descStep (descStep (chars "(property \"Description\" \"old\" (at 0 0 0))")
      (chars "Buck Converter")).1 (chars "Buck Converter")).2 = true :=
  C1_descStep_refires (chars "(property \"Description\" \"old\" (at 0 0 0))")
    (chars "Buck Converter") (by decide) (by decide) (by decide)

end KicadJlc
